import Mathlib

/-!
# Console file explorer (`main.cpp`): a shallow embedding and its properties

The program lists a directory (`listDirectory`), renders the listing
(`printDirectory`), previews a file (`showFilePreview`) and drives a menu loop
(`fileExplorer`).  The embedding keeps the names of the C++ functions.

Conventions of the embedding

* a `std::string` is the list of its bytes, each byte being its unsigned value;
* an `fs::path` is its native string;
* the host filesystem, the console input and `std::sort` are external to the
  program: they are parameters of the functions that use them;
* what is written to `cout` is recorded as the list of inserted values.
-/

namespace FileExplorer

/-! ## Strings -/

/-- The bytes of a `std::string`. -/
abbrev Str := List Nat

/-- An `fs::path`, held as its native string. -/
abbrev Path := List Nat

/-- The bytes of an ASCII literal. -/
def ascii (s : String) : Str := s.toList.map Char.toNat

/-- The newline byte. -/
def newline : Nat := 10

/-- The function `tolower` of `<cctype>` in the "C" locale (the program never calls
`setlocale`): the letters `A`..`Z` are moved to `a`..`z`, every other byte is
kept. -/
def tolower (c : Nat) : Nat :=
  if 65 ≤ c ∧ c ≤ 90 then c + 32 else c

/-- The function `toLower` of `main.cpp`: `transform` with `tolower` over the
whole string. -/
def toLower (s : Str) : Str := s.map tolower

/-- The `operator<` on `std::string`: lexicographic comparison of the bytes as
unsigned values, a proper prefix being smaller. -/
def strLt : Str → Str → Bool
  | _, [] => false
  | [], _ :: _ => true
  | a :: as, b :: bs =>
    if a < b then true else if b < a then false else strLt as bs

/-- The `operator<=` on `std::string`: lexicographic, a prefix being smaller or
equal. -/
def strLe : Str → Str → Bool
  | [], _ => true
  | _ :: _, [] => false
  | a :: as, b :: bs =>
    if a < b then true else if b < a then false else strLe as bs

/-! ## Directory entries and the comparator of the sort -/

/-- The record `struct DirItem`. -/
structure DirItem where
  name : Str
  path : Path
  isDir : Bool := false
  size : Nat := 0
deriving DecidableEq

/-- The lambda handed to `sort` in `listDirectory`:
`if (a.isDir != b.isDir) return a.isDir > b.isDir;
 return toLower(a.name) < toLower(b.name);`
where `a.isDir > b.isDir` on `bool` holds exactly for `true > false`. -/
def dirItemLess (a b : DirItem) : Bool :=
  if a.isDir != b.isDir then a.isDir && !b.isDir
  else strLt (toLower a.name) (toLower b.name)

/-- Two entries that the comparator does not order either way. -/
def incomparable (a b : DirItem) : Prop :=
  dirItemLess a b = false ∧ dirItemLess b a = false

/-- A sequence is sorted with respect to a comparator when no later element is
smaller than an earlier one (the C++ definition, [alg.sorting]). -/
def SortedBy (comp : DirItem → DirItem → Bool) (l : List DirItem) : Prop :=
  l.Pairwise (fun a b => comp b a = false)

/-- A comparator that `std::sort` accepts: a strict weak ordering. -/
structure StrictWeakOrder (comp : DirItem → DirItem → Bool) : Prop where
  irrefl : ∀ a, comp a a = false
  asymm : ∀ a b, comp a b = true → comp b a = false
  trans : ∀ a b c, comp a b = true → comp b c = true → comp a c = true
  incompTrans : ∀ a b c, comp a b = false → comp b a = false →
    comp b c = false → comp c b = false → comp a c = false ∧ comp c a = false

/-- What the C++ standard promises of `std::sort(first, last, comp)` when
`comp` is a strict weak ordering: the range is rearranged (a permutation of
what it held) and ends sorted with respect to `comp`.  The relative order of
equivalent elements is not part of the promise. -/
structure StdSortContract
    (sort : (DirItem → DirItem → Bool) → List DirItem → List DirItem) : Prop where
  perm : ∀ comp l, StrictWeakOrder comp → (sort comp l).Perm l
  sorted : ∀ comp l, StrictWeakOrder comp → SortedBy comp (sort comp l)

/-! ## `std::sort`

`std::sort` belongs to the C++ standard library.  The properties of
`listDirectory` are stated for every function that meets `StdSortContract`.
Two such functions are kept at hand: a plain insertion sort, and the
`std::sort` of GNU libstdc++ (`bits/stl_algo.h`, `bits/stl_heap.h`), the one a
`g++` build of the program runs. -/

/-- Insertion of `x` into a sorted list, after the elements it is not smaller
than. -/
def orderedInsert (comp : DirItem → DirItem → Bool) (x : DirItem) : List DirItem → List DirItem
  | [] => [x]
  | y :: ys => if comp x y then x :: y :: ys else y :: orderedInsert comp x ys

/-- Insertion sort: a function that meets the contract of `std::sort`.  Each
element is inserted into the sorted rest of the sequence. -/
def insertionSort (comp : DirItem → DirItem → Bool) : List DirItem → List DirItem
  | [] => []
  | x :: xs => orderedInsert comp x (insertionSort comp xs)

namespace Gnu

/-!
The functions of libstdc++ behind `std::sort`, over a vector held as a list;
iterators are indices into it.  A result `none` stands for a read or write
outside the vector, or for a loop that ran out of its bound.
-/

variable {α : Type}

/-- Writing `*(v.begin() + i) = x`; `none` outside the vector. -/
def store (v : List α) (i : Nat) (x : α) : Option (List α) :=
  if i < v.length then some (v.set i x) else none

/-- Translation of `std::iter_swap(a, b)`. -/
def iterSwap (v : List α) (a b : Nat) : Option (List α) := do
  let x ← v[a]?
  let y ← v[b]?
  let v1 ← store v a y
  store v1 b x

/-- The position of the highest set bit of `n`, found in at most `fuel`
halvings. -/
def lgFrom : Nat → Nat → Nat
  | 0, _ => 0
  | fuel + 1, n => if n ≤ 1 then 0 else lgFrom fuel (n / 2) + 1

/-- Translation of `std::__lg(n)` for the whole range of `n`. -/
def lg (n : Nat) : Nat := lgFrom n n

/-- Translation of `std::__move_median_to_first(result, a, b, c, comp)`. -/
def moveMedianToFirst (comp : α → α → Bool) (v : List α) (result a b c : Nat) :
    Option (List α) := do
  let xa ← v[a]?
  let xb ← v[b]?
  let xc ← v[c]?
  if comp xa xb then
    if comp xb xc then iterSwap v result b
    else if comp xa xc then iterSwap v result c
    else iterSwap v result a
  else if comp xa xc then iterSwap v result a
  else if comp xb xc then iterSwap v result c
  else iterSwap v result b

/-- The loop of `std::__unguarded_linear_insert`, entered with the hole at `last`. -/
def unguardedLinearInsertLoop (comp : α → α → Bool) (val : α) : Nat → List α → Option (List α)
  | 0, _ => none
  | next + 1, v => do
    let x ← v[next]?
    if comp val x then do
      let v1 ← store v (next + 1) x
      unguardedLinearInsertLoop comp val next v1
    else store v (next + 1) val

/-- Translation of `std::__unguarded_linear_insert(last, comp)`. -/
def unguardedLinearInsert (comp : α → α → Bool) (v : List α) (last : Nat) : Option (List α) := do
  let val ← v[last]?
  unguardedLinearInsertLoop comp val last v

/-- The `for` loop of `std::__insertion_sort`, with `n` iterations left.  When
`*i` is smaller than `*first`, `move_backward(first, i, i + 1)` shifts the
range one place up and `*i` goes to `first`. -/
def insertionSortLoop (comp : α → α → Bool) (first : Nat) : Nat → Nat → List α → Option (List α)
  | 0, _, v => some v
  | n + 1, i, v => do
    let xi ← v[i]?
    let xf ← v[first]?
    let v1 ← if comp xi xf then
        some (v.take first ++ xi :: ((v.drop first).take (i - first)) ++ v.drop (i + 1))
      else unguardedLinearInsert comp v i
    insertionSortLoop comp first n (i + 1) v1

/-- Translation of `std::__insertion_sort(first, last, comp)`. -/
def insertionSort (comp : α → α → Bool) (v : List α) (first last : Nat) : Option (List α) :=
  if first = last then some v
  else insertionSortLoop comp first (last - (first + 1)) (first + 1) v

/-- Translation of `std::__unguarded_insertion_sort(first, last, comp)`, with
`n` iterations left. -/
def unguardedInsertionSort (comp : α → α → Bool) : Nat → Nat → List α → Option (List α)
  | 0, _, v => some v
  | n + 1, i, v => do
    let v1 ← unguardedLinearInsert comp v i
    unguardedInsertionSort comp n (i + 1) v1

/-- Translation of `std::__final_insertion_sort(first, last, comp)`. -/
def finalInsertionSort (comp : α → α → Bool) (v : List α) (first last : Nat) : Option (List α) :=
  if last - first > 16 then do
    let v1 ← insertionSort comp v first (first + 16)
    unguardedInsertionSort comp (last - (first + 16)) (first + 16) v1
  else insertionSort comp v first last

/-- Translation of `while (comp(first, pivot)) ++first;`. -/
def scanUp (comp : α → α → Bool) (v : List α) (pivot : Nat) : Nat → Nat → Option Nat
  | 0, _ => none
  | fuel + 1, first => do
    let x ← v[first]?
    let p ← v[pivot]?
    if comp x p then scanUp comp v pivot fuel (first + 1) else some first

/-- Translation of `while (comp(pivot, last)) --last;`. -/
def scanDown (comp : α → α → Bool) (v : List α) (pivot : Nat) : Nat → Option Nat
  | 0 => do
    let x ← v[0]?
    let p ← v[pivot]?
    if comp p x then none else some 0
  | last + 1 => do
    let x ← v[last + 1]?
    let p ← v[pivot]?
    if comp p x then scanDown comp v pivot last else some (last + 1)

/-- Translation of `std::__unguarded_partition(first, last, pivot, comp)`. -/
def unguardedPartition (comp : α → α → Bool) (pivot : Nat) :
    Nat → List α → Nat → Nat → Option (List α × Nat)
  | 0, _, _, _ => none
  | fuel + 1, v, first, last => do
    let first1 ← scanUp comp v pivot (v.length + 1) first
    if last = 0 then none
    else do
      let last1 ← scanDown comp v pivot (last - 1)
      if first1 < last1 then do
        let v1 ← iterSwap v first1 last1
        unguardedPartition comp pivot fuel v1 (first1 + 1) last1
      else some (v, first1)

/-- Translation of `std::__unguarded_partition_pivot(first, last, comp)`. -/
def unguardedPartitionPivot (comp : α → α → Bool) (v : List α) (first last : Nat) :
    Option (List α × Nat) := do
  let mid := first + (last - first) / 2
  let v1 ← moveMedianToFirst comp v first (first + 1) mid (last - 1)
  unguardedPartition comp first (v1.length + 1) v1 (first + 1) last

/-- The loop of `std::__push_heap`. -/
def pushHeapLoop (comp : α → α → Bool) (first topIndex : Nat) (value : α) :
    Nat → List α → Nat → Option (List α)
  | 0, _, _ => none
  | fuel + 1, v, holeIndex => do
    let parent := (holeIndex - 1) / 2
    if holeIndex > topIndex then do
      let x ← v[first + parent]?
      if comp x value then do
        let v1 ← store v (first + holeIndex) x
        pushHeapLoop comp first topIndex value fuel v1 parent
      else store v (first + holeIndex) value
    else store v (first + holeIndex) value

/-- Translation of `std::__push_heap(first, holeIndex, topIndex, value, comp)`. -/
def pushHeap (comp : α → α → Bool) (v : List α) (first holeIndex topIndex : Nat) (value : α) :
    Option (List α) :=
  pushHeapLoop comp first topIndex value (holeIndex + 1) v holeIndex

/-- The first loop of `std::__adjust_heap`: the vector, `holeIndex` and
`secondChild` as the loop leaves them. -/
def adjustHeapLoop (comp : α → α → Bool) (first len : Nat) :
    Nat → List α → Nat → Nat → Option (List α × Nat × Nat)
  | 0, _, _, _ => none
  | fuel + 1, v, holeIndex, secondChild =>
    if secondChild < (len - 1) / 2 then do
      let c := 2 * (secondChild + 1)
      let x ← v[first + c]?
      let y ← v[first + (c - 1)]?
      let c1 := if comp x y then c - 1 else c
      let z ← v[first + c1]?
      let v1 ← store v (first + holeIndex) z
      adjustHeapLoop comp first len fuel v1 c1 c1
    else some (v, holeIndex, secondChild)

/-- Translation of `std::__adjust_heap(first, holeIndex, len, value, comp)`.
The lengths are signed in the source: for `len < 2` the value `(len - 2) / 2`
is negative or zero with `len` odd, and the second test fails. -/
def adjustHeap (comp : α → α → Bool) (v : List α) (first holeIndex len : Nat) (value : α) :
    Option (List α) := do
  let (v1, hole1, child1) ← adjustHeapLoop comp first len (len + 1) v holeIndex holeIndex
  if len % 2 = 0 ∧ 2 ≤ len ∧ child1 = (len - 2) / 2 then do
    let c := 2 * (child1 + 1)
    let z ← v1[first + (c - 1)]?
    let v2 ← store v1 (first + hole1) z
    pushHeap comp v2 first (c - 1) holeIndex value
  else pushHeap comp v1 first hole1 holeIndex value

/-- Translation of `std::__pop_heap(first, last, result, comp)`. -/
def popHeap (comp : α → α → Bool) (v : List α) (first last result : Nat) : Option (List α) := do
  let value ← v[result]?
  let x ← v[first]?
  let v1 ← store v result x
  adjustHeap comp v1 first 0 (last - first) value

/-- The loop of `std::__make_heap`, entered with `parent`. -/
def makeHeapLoop (comp : α → α → Bool) (first len : Nat) : Nat → List α → Option (List α)
  | 0, v => do
    let value ← v[first]?
    adjustHeap comp v first 0 len value
  | parent + 1, v => do
    let value ← v[first + (parent + 1)]?
    let v1 ← adjustHeap comp v first (parent + 1) len value
    makeHeapLoop comp first len parent v1

/-- Translation of `std::__make_heap(first, last, comp)`. -/
def makeHeap (comp : α → α → Bool) (v : List α) (first last : Nat) : Option (List α) :=
  if last - first < 2 then some v
  else makeHeapLoop comp first (last - first) ((last - first - 2) / 2) v

/-- Translation of `std::__sort_heap(first, last, comp)`, with `n = last - first`. -/
def sortHeap (comp : α → α → Bool) (first : Nat) : Nat → List α → Option (List α)
  | 0, v => some v
  | n + 1, v =>
    if n + 1 > 1 then do
      let v1 ← popHeap comp v first (first + n) (first + n)
      sortHeap comp first n v1
    else some v

/-- The `for` loop of `std::__heap_select`, with `n` iterations left. -/
def heapSelectLoop (comp : α → α → Bool) (first middle : Nat) : Nat → Nat → List α → Option (List α)
  | 0, _, v => some v
  | n + 1, i, v => do
    let x ← v[i]?
    let y ← v[first]?
    let v1 ← if comp x y then popHeap comp v first middle i else some v
    heapSelectLoop comp first middle n (i + 1) v1

/-- Translation of `std::__heap_select(first, middle, last, comp)`. -/
def heapSelect (comp : α → α → Bool) (v : List α) (first middle last : Nat) : Option (List α) := do
  let v1 ← makeHeap comp v first middle
  heapSelectLoop comp first middle (last - middle) middle v1

/-- Translation of `std::__partial_sort(first, middle, last, comp)`. -/
def partialSort (comp : α → α → Bool) (v : List α) (first middle last : Nat) : Option (List α) := do
  let v1 ← heapSelect comp v first middle last
  sortHeap comp first (middle - first) v1

/-- Translation of `std::__introsort_loop(first, last, depth_limit, comp)`. -/
def introsortLoop (comp : α → α → Bool) : Nat → List α → Nat → Nat → Option (List α)
  | 0, v, first, last =>
    if last - first > 16 then partialSort comp v first last last else some v
  | depthLimit + 1, v, first, last =>
    if last - first > 16 then do
      let (v1, cut) ← unguardedPartitionPivot comp v first last
      let v2 ← introsortLoop comp depthLimit v1 cut last
      introsortLoop comp depthLimit v2 first cut
    else some v

/-- Translation of `std::sort(first, last, comp)` over the whole vector. -/
def sort (comp : α → α → Bool) (v : List α) : Option (List α) :=
  if v.length = 0 then some v
  else do
    let v1 ← introsortLoop comp (lg v.length * 2) v 0 v.length
    finalInsertionSort comp v1 0 v.length

end Gnu

/-- The `std::sort` of libstdc++ as a function on vectors (the vector is left
as it is where `Gnu.sort` has no result). -/
def gnuSort (comp : DirItem → DirItem → Bool) (l : List DirItem) : List DirItem :=
  (Gnu.sort comp l).getD l

/-! ## Console output -/

/-- One value inserted into `cout` with `<<`. -/
inductive Chunk where
  /-- A string literal of the program text. -/
  | lit (s : String)
  /-- A `std::string` value (a name, a path, a line of a file, a `what()`). -/
  | str (s : Str)
  /-- An integer value. -/
  | num (n : Nat)
  /-- The manipulator `left`. -/
  | left
  /-- The manipulator `setw(n)`. -/
  | setw (n : Nat)
deriving DecidableEq

/-! ## The host filesystem -/

/-- One `directory_entry` handed out by a `directory_iterator`, with the
answers the program asks of it. -/
structure DirEntry where
  /-- Result of `entry.path()`. -/
  path : Path
  /-- Result of `entry.is_directory()`: the answer, or the `what()` of the
  `filesystem_error` it throws. -/
  isDirectory : Except Str Bool
  /-- Result of `entry.file_size(ec)`: the size, or `none` when `ec` is set. -/
  fileSize : Option Nat

/-- The run of a `directory_iterator` over a directory: it ends, it throws
(in the constructor when nothing was handed out yet, in `operator++`
afterwards), or it hands out one more entry. -/
inductive DirStream where
  | done : DirStream
  | fail (what : Str) : DirStream
  | next (entry : DirEntry) (rest : DirStream) : DirStream

/-- The stream that hands out `cs` and then goes on as `tail`. -/
def DirStream.ofList (cs : List DirEntry) (tail : DirStream) : DirStream :=
  cs.foldr DirStream.next tail

/-- The facilities of `std::filesystem` and `std::ifstream` the program
consumes, as answered by the host. -/
structure FileSystem where
  /-- Ranging over `fs::directory_iterator(p)`. -/
  directoryIterator : Path → DirStream
  /-- Result of `p.filename().string()`. -/
  filename : Path → Str
  /-- Opening `ifstream in(p, ios::binary)`: the bytes of the file, or `none`
  when the stream is not open. -/
  openFile : Path → Option (List Nat)
  /-- Result of `p.has_parent_path()`. -/
  hasParentPath : Path → Bool
  /-- Result of `p.parent_path()`. -/
  parentPath : Path → Path
  /-- Result of `fs::exists(p, ec)`. -/
  pathExists : Path → Bool
  /-- Result of `fs::is_directory(p, ec)`. -/
  isDirectory : Path → Bool
  /-- Result of `fs::canonical(p, ec)`: the path, or `none` when `ec` is set. -/
  canonical : Path → Option Path

/-! ## `listDirectory` -/

/-- The value `file_size(ec)` returns on error: `static_cast<uintmax_t>(-1)`. -/
def fileSizeError : Nat := 2 ^ 64 - 1

/-- The body of the `for` loop of `listDirectory` up to `push_back`: the
`DirItem` built from one entry, or the `what()` of the exception thrown by
`entry.is_directory()`. -/
def DirEntry.item (fs : FileSystem) (entry : DirEntry) : Except Str DirItem :=
  match entry.isDirectory with
  | .error what => .error what
  | .ok d =>
    .ok { path := entry.path
          name := fs.filename entry.path
          isDir := d
          size := if d then 0 else entry.fileSize.getD fileSizeError }

/-- The `for` loop of `listDirectory`: `out` as the loop leaves it, with the
`what()` of the exception when the loop is left by one. -/
def enumerate (fs : FileSystem) : DirStream → List DirItem → List DirItem × Option Str
  | .done, out => (out, none)
  | .fail what, out => (out, some what)
  | .next entry rest, out =>
    match entry.item fs with
    | .error what => (out, some what)
    | .ok it => enumerate fs rest (out ++ [it])

/-- The function `listDirectory` of `main.cpp`: what it writes to `cout` and the vector it
returns.  `sort` is `std::sort`; it is reached only when the loop ends without
an exception, and the `catch` clause leaves `out` as it is. -/
def listDirectory (sort : (DirItem → DirItem → Bool) → List DirItem → List DirItem)
    (fs : FileSystem) (p : Path) : List Chunk × List DirItem :=
  match enumerate fs (fs.directoryIterator p) [] with
  | (out, none) => ([], sort dirItemLess out)
  | (out, some what) =>
    ([.lit "Error listing directory: ", .str what, .lit "\n"], out)

/-! ## `printDirectory` -/

/-- The rows of the table, `i` being the index of the first one. -/
def printRows : List DirItem → Nat → List Chunk
  | [], _ => []
  | it :: rest, i =>
    [.left, .setw 5, .num (i + 1), .setw 6,
      .lit (if it.isDir then "DIR" else "FILE"), .setw 12,
      (if it.isDir then .lit "-" else .num it.size), .str it.name, .lit "\n"]
      ++ printRows rest (i + 1)

/-- The function `printDirectory` of `main.cpp`. -/
def printDirectory (p : Path) (items : List DirItem) : List Chunk :=
  [.lit "\nCurrent directory:\n  ", .str p, .lit "\n\n"] ++
    if items.isEmpty then [.lit "(empty)\n"]
    else
      [.left, .setw 5, .lit "#", .setw 6, .lit "TYPE", .setw 12, .lit "SIZE",
        .lit "NAME", .lit "\n", .str (List.replicate 60 45), .lit "\n"]
        ++ printRows items 0

/-! ## `showFilePreview` -/

/-- An open `ifstream`: the bytes of the file, the bytes not yet read, and
the state flags. -/
structure IStream where
  file : List Nat
  rest : List Nat
  eofbit : Bool
  failbit : Bool
deriving DecidableEq

/-- The call `in.read(buf, n)` on a stream in good state: the stream after it
and the `gcount()` bytes stored in `buf`.  Reaching the end of the file before
`n` bytes sets `eofbit` and `failbit`. -/
def IStream.read (s : IStream) (n : Nat) : IStream × List Nat :=
  let got := s.rest.take n
  ({ s with rest := s.rest.drop n
            eofbit := s.eofbit || decide (got.length < n)
            failbit := s.failbit || decide (got.length < n) }, got)

/-- The calls `in.clear(); in.seekg(0, ios::beg);`. -/
def IStream.rewind (s : IStream) : IStream :=
  { s with rest := s.file, eofbit := false, failbit := false }

/-- The extraction of `getline`: the bytes before the first newline, the
bytes after it, and whether a newline was met (it is extracted and dropped). -/
def untilNewline : List Nat → Str × List Nat × Bool
  | [] => ([], [], false)
  | c :: cs =>
    if c = newline then ([], cs, true)
    else ((c :: (untilNewline cs).1), (untilNewline cs).2.1, (untilNewline cs).2.2)

/-- The call `getline(in, line)`: the stream and `line` after it.  On a stream
that is not good the sentry sets `failbit` and `line` is untouched; otherwise
bytes are extracted up to a newline or the end of the file, the end of the
file sets `eofbit`, and extracting nothing at all sets `failbit`. -/
def getline (s : IStream) (line : Str) : IStream × Str :=
  if s.eofbit || s.failbit then ({ s with failbit := true }, line)
  else
    let r := untilNewline s.rest
    if r.2.2 then ({ s with rest := r.2.1 }, r.1)
    else ({ s with rest := [], eofbit := true, failbit := r.1.isEmpty }, r.1)

/-- The loop `while (count < maxLines && getline(in, line))` with its body
`cout << line << "\n"; ++count;`, the first argument being `maxLines - count`:
the stream as the loop leaves it and what the loop wrote. -/
def previewLoop : Nat → IStream → Str → IStream × List Chunk
  | 0, s, _ => (s, [])
  | n + 1, s, line =>
    let r := getline s line
    if r.1.failbit then (r.1, [])
    else ((previewLoop n r.1 r.2).1, [.str r.2, .lit "\n"] ++ (previewLoop n r.1 r.2).2)

/-- The notice of `showFilePreview` for a binary file. -/
def binaryNotice : List Chunk := [.lit "(Binary file preview suppressed)\n"]

/-- The header of a preview. -/
def previewHeader (fs : FileSystem) (filePath : Path) : List Chunk :=
  [.lit "\n----- File: ", .str (fs.filename filePath), .lit " -----\n"]

/-- The truncation notice of a preview. -/
def truncationNotice (maxLines : Nat) : List Chunk :=
  [.lit "... (truncated after ", .num maxLines, .lit " lines)\n"]

/-- The footer of a preview. -/
def previewFooter : List Chunk := [.lit "----- End of preview -----\n"]

/-- The function `showFilePreview` of `main.cpp`: what it writes to `cout` and the value it
returns. -/
def showFilePreview (fs : FileSystem) (filePath : Path) (maxLines : Nat) :
    List Chunk × Bool :=
  match fs.openFile filePath with
  | none => ([.lit "Could not open file: ", .str filePath, .lit "\n"], false)
  | some file =>
    let s0 : IStream := { file := file, rest := file, eofbit := false, failbit := false }
    let buf := (s0.read 4096).2
    let hasNull := buf.any (fun c => c == 0)
    let s1 := (s0.read 4096).1.rewind
    if hasNull then (binaryNotice, true)
    else
      let r := previewLoop maxLines s1 []
      (previewHeader fs filePath ++ r.2
        ++ (if !r.1.failbit && !r.1.eofbit then truncationNotice maxLines else [])
        ++ previewFooter, true)

/-- The line cap `showFilePreview` takes when none is given. -/
def defaultMaxLines : Nat := 200

/-- The lines of a file: the runs of bytes ended by a newline, and the bytes
after the last newline when there are any. -/
def fileLinesFrom : List Nat → Str → List Str
  | [], cur => if cur.isEmpty then [] else [cur]
  | c :: cs, cur =>
    if c = newline then cur :: fileLinesFrom cs [] else fileLinesFrom cs (cur ++ [c])

/-- The lines of a file, in order. -/
def fileLines (file : List Nat) : List Str := fileLinesFrom file []

/-- The content lines of a preview: each line followed by a newline. -/
def contentLines (lines : List Str) : List Chunk :=
  lines.flatMap (fun l => [.str l, .lit "\n"])

/-! ## `fileExplorer` -/

/-- What `cin` yields during one iteration of the loop. -/
structure Input where
  /-- Result of `cin >> choice`, `none` when the extraction fails. -/
  choice : Option Int
  /-- Result of `cin >> idx` (asked after choices 1 and 2), `none` when the
  extraction fails. -/
  idx : Option Nat
  /-- Result of `getline(cin, pathStr)` (asked after choice 4). -/
  pathStr : Str

/-- The effect of one iteration of the loop of `fileExplorer`. -/
structure Step where
  /-- The variable `current` after the iteration. -/
  current : Path
  /-- Whether the loop goes on (`false` after `return`). -/
  running : Bool
  /-- What the iteration wrote to `cout`. -/
  out : List Chunk
  /-- The argument of the call of `showFilePreview`, when there is one. -/
  previewed : Option Path
deriving DecidableEq

/-- The function `pressEnterToContinue` of `main.cpp` (what it writes). -/
def pressEnterToContinue : List Chunk := [.lit "\nPress Enter to continue..."]

/-- The menu written at each iteration. -/
def menu : List Chunk :=
  [.lit "\nFile Explorer Menu:\n", .lit "  1) Open directory by #\n",
    .lit "  2) View file by #\n", .lit "  3) Go up (..)\n",
    .lit "  4) Change directory by path\n", .lit "  5) Refresh\n",
    .lit "  0) Back to Main Menu\n", .lit "> "]

/-- The entry `items[idx-1]` when `idx >= 1 && idx <= items.size()`. -/
def selected (items : List DirItem) (idx : Nat) : Option DirItem :=
  if 1 ≤ idx ∧ idx ≤ items.length then items[idx - 1]? else none

/-- The part of one iteration that follows the menu: reading the command and
acting on it, for the listing `items` of this iteration. -/
def runCommand (fs : FileSystem) (items : List DirItem) (current : Path)
    (inp : Input) : Step :=
  match inp.choice with
  | none => { current := current, running := true, out := [], previewed := none }
  | some choice =>
    if choice = 0 then
      { current := current, running := false, out := [], previewed := none }
    else if choice = 1 then
      match inp.idx with
      | none =>
        { current := current, running := true,
          out := [.lit "Enter item # to open (directory): "], previewed := none }
      | some idx =>
        match (selected items idx).filter (fun it => it.isDir) with
        | some it =>
          { current := it.path, running := true,
            out := [.lit "Enter item # to open (directory): "], previewed := none }
        | none =>
          { current := current, running := true,
            out := [.lit "Enter item # to open (directory): ",
                    .lit "Invalid directory selection.\n"] ++ pressEnterToContinue,
            previewed := none }
    else if choice = 2 then
      match inp.idx with
      | none =>
        { current := current, running := true,
          out := [.lit "Enter item # to view (file): "], previewed := none }
      | some idx =>
        match (selected items idx).filter (fun it => !it.isDir) with
        | some it =>
          { current := current, running := true,
            out := [.lit "Enter item # to view (file): "]
              ++ (showFilePreview fs it.path defaultMaxLines).1 ++ pressEnterToContinue,
            previewed := some it.path }
        | none =>
          { current := current, running := true,
            out := [.lit "Enter item # to view (file): ",
                    .lit "Invalid file selection.\n"] ++ pressEnterToContinue,
            previewed := none }
    else if choice = 3 then
      { current := if fs.hasParentPath current then fs.parentPath current else current,
        running := true, out := [], previewed := none }
    else if choice = 4 then
      if fs.pathExists inp.pathStr && fs.isDirectory inp.pathStr then
        { current := (fs.canonical inp.pathStr).getD inp.pathStr,
          running := true, out := [.lit "Enter path: "], previewed := none }
      else
        { current := current, running := true,
          out := [.lit "Enter path: ", .lit "Not a directory: ", .str inp.pathStr,
                  .lit "\n"] ++ pressEnterToContinue,
          previewed := none }
    else if choice = 5 then
      { current := current, running := true, out := [], previewed := none }
    else
      { current := current, running := true, out := [.lit "Unknown choice.\n"],
        previewed := none }

/-- One iteration of the loop of `fileExplorer`: list `current`, render the
listing and the menu, then read one command and act on it. -/
def fileExplorerStep (sort : (DirItem → DirItem → Bool) → List DirItem → List DirItem)
    (fs : FileSystem) (current : Path) (inp : Input) : Step :=
  let listing := listDirectory sort fs current
  let r := runCommand fs listing.2 current inp
  { r with out := listing.1 ++ printDirectory current listing.2 ++ menu ++ r.out }

/-- The function `fileExplorer` of `main.cpp` run on the inputs of successive iterations,
from the directory `current`: the directory it ends in and what it wrote.  It
stops at `return` (choice 0), or when the recorded inputs are used up. -/
def fileExplorer (sort : (DirItem → DirItem → Bool) → List DirItem → List DirItem)
    (fs : FileSystem) : Path → List Input → Path × List Chunk
  | current, [] => (current, [])
  | current, inp :: rest =>
    let r := fileExplorerStep sort fs current inp
    if r.running then
      ((fileExplorer sort fs r.current rest).1, r.out ++ (fileExplorer sort fs r.current rest).2)
    else (r.current, r.out)

/-! ## Statements about listings -/

/-- The order of two adjacent entries of a listing: a directory before a
file, or two entries of one kind with lower-cased names in ascending order. -/
def adjacentOrdered (a b : DirItem) : Prop :=
  (a.isDir = true ∧ b.isDir = false) ∨
    (a.isDir = b.isDir ∧ strLe (toLower a.name) (toLower b.name) = true)

/-- The entry `it` is the one `listDirectory` builds from the child `c`: it
carries the path, the name and the kind of the child, and the size of a file
(`fileSizeError` when the size query fails). -/
def builtFrom (fs : FileSystem) (c : DirEntry) (it : DirItem) : Prop :=
  it.path = c.path ∧ it.name = fs.filename c.path ∧ c.isDirectory = .ok it.isDir ∧
    it.size = if it.isDir then 0 else c.fileSize.getD fileSizeError

/-! ## Sample hosts -/

/-- The final component of a path made of components separated by `/`. -/
def baseName (p : Path) : Str := (p.reverse.takeWhile (fun c => c != 47)).reverse

/-- A host with nothing in it. -/
def emptyHost : FileSystem where
  directoryIterator := fun _ => .done
  filename := baseName
  openFile := fun _ => none
  hasParentPath := fun _ => false
  parentPath := fun p => p
  pathExists := fun _ => false
  isDirectory := fun _ => false
  canonical := fun _ => none

/-- A host on which every directory is enumerated as `stream`. -/
def hostWithDir (stream : DirStream) : FileSystem :=
  { emptyHost with directoryIterator := fun _ => stream }

/-- A host on which every file opens with the bytes `file`. -/
def hostWithFile (file : List Nat) : FileSystem :=
  { emptyHost with openFile := fun _ => some file }

/-- The directory the samples list. -/
def sampleDir : Path := ascii "/srv/docs"

/-- A child of `sampleDir` that is a regular file of 12 bytes. -/
def fileChild (name : String) : DirEntry :=
  { path := ascii ("/srv/docs/" ++ name), isDirectory := .ok false, fileSize := some 12 }

/-- A child of `sampleDir` that is a directory. -/
def dirChild (name : String) : DirEntry :=
  { path := ascii ("/srv/docs/" ++ name), isDirectory := .ok true, fileSize := none }

/-- A child of `sampleDir` that is a file whose size query fails. -/
def unreadableChild (name : String) : DirEntry :=
  { path := ascii ("/srv/docs/" ++ name), isDirectory := .ok false, fileSize := none }

/-- The entry of a listing for `fileChild name`. -/
def fileItem (name : String) : DirItem :=
  { name := ascii name, path := ascii ("/srv/docs/" ++ name), isDir := false, size := 12 }

/-- The entry of a listing for `dirChild name`. -/
def dirItem (name : String) : DirItem :=
  { name := ascii name, path := ascii ("/srv/docs/" ++ name), isDir := true, size := 0 }

/-- The entry of a listing for `unreadableChild name`. -/
def unreadableItem (name : String) : DirItem :=
  { name := ascii name, path := ascii ("/srv/docs/" ++ name), isDir := false,
    size := fileSizeError }

/-- A directory of four children, in the order the host enumerates them. -/
def mixedChildren : List DirEntry :=
  [fileChild "notes.txt", dirChild "src", unreadableChild "Locked.bin", dirChild "Build"]

/-- A directory of two files whose names differ by case only. -/
def twinChildren : List DirEntry := [fileChild "README", fileChild "readme"]

/-- A directory of seventeen files, `README` enumerated first and `readme`
sixteenth. -/
def seventeenChildren : List DirEntry :=
  ["README", "k", "b", "h", "o", "e", "f", "d", "n", "l", "m", "i", "j", "g", "a",
    "readme", "c"].map fileChild

/-! ## Statements about previews -/

/-- A stream in good state over `file` with `rest` still to read. -/
def goodStream (file rest : List Nat) : IStream :=
  { file := file, rest := rest, eofbit := false, failbit := false }

/-- Whether the last line of a file is followed by a line terminator (an empty
file has no last line and counts as terminated). -/
def terminated (file : List Nat) : Bool :=
  match file.getLast? with
  | none => true
  | some c => c == newline

/-- Whether one of the first 4096 bytes of a file is a null byte. -/
def HasNullInFirstBlock (file : List Nat) : Prop :=
  ∃ i, i < min 4096 file.length ∧ file[i]? = some 0

/-- A file of 200 lines `x`, each followed by a newline. -/
def twoHundredLines : List Nat := (List.replicate 200 [120, 10]).flatten

/-- A file of three lines, the last one without a line terminator. -/
def threeLines : List Nat := ascii "alpha\nbeta\ngamma"

/-- A file with a null byte among its first bytes and text after it. -/
def binaryFile : List Nat := [127, 69, 76, 70, 0, 10] ++ ascii "text\nmore text\n"

/-- The path of the file the samples preview. -/
def samplePath : Path := ascii "/srv/docs/notes.txt"

/-! ## Sample sessions -/

/-- A directory of five children, in the order the host enumerates them. -/
def fiveChildren : List DirEntry :=
  [fileChild "notes.txt", dirChild "src", fileChild "b.txt", dirChild "Build", fileChild "a.txt"]

/-- The listing of `fiveChildren`. -/
def fiveItems : List DirItem :=
  [dirItem "Build", dirItem "src", fileItem "a.txt", fileItem "b.txt", fileItem "notes.txt"]

/-- A host whose directories all hold `fiveChildren`. -/
def fiveHost : FileSystem := hostWithDir (DirStream.ofList fiveChildren .done)

/-- The input `1` at the menu, then `idx` at the prompt. -/
def openAt (idx : Nat) : Input := { choice := some 1, idx := some idx, pathStr := [] }

/-- The input `2` at the menu, then `idx` at the prompt. -/
def viewAt (idx : Nat) : Input := { choice := some 2, idx := some idx, pathStr := [] }

/-- A host with `fiveChildren` in every directory, on which `/srv` exists, is
a directory and is the parent of `/srv/docs`. -/
def srvHost : FileSystem :=
  { fiveHost with
    hasParentPath := fun _ => true
    parentPath := fun _ => ascii "/srv"
    pathExists := fun p => p == ascii "/srv"
    isDirectory := fun p => p == ascii "/srv"
    canonical := fun p => some p }

/-! ### Elementary facts on the string order -/

theorem strLt_irrefl (s : Str) : strLt s s = false := by
  induction s with
  | nil => rfl
  | cons a as ih => simp [strLt, ih]

theorem strLt_asymm : ∀ s t : Str, strLt s t = true → strLt t s = false
  | _, [], h => by simp [strLt] at h
  | [], _ :: _, _ => by simp [strLt]
  | a :: as, b :: bs, h => by
    simp only [strLt] at h ⊢
    by_cases h1 : a < b
    · have h2 : ¬ b < a := by omega
      simp [h2, h1]
    · by_cases h2 : b < a
      · simp [h1, h2] at h
      · simp only [h1, h2, if_false] at h ⊢
        exact strLt_asymm as bs h

theorem strLt_trans : ∀ s t u : Str, strLt s t = true → strLt t u = true → strLt s u = true
  | _, _, [], _, h2 => by
    rename_i t _
    cases t <;> simp [strLt] at h2
  | _, [], _ :: _, h1, _ => by simp [strLt] at h1
  | [], _ :: _, _ :: _, _, _ => by simp [strLt]
  | a :: as, b :: bs, c :: cs, h1, h2 => by
    simp only [strLt] at h1 h2 ⊢
    by_cases ab : a < b
    · by_cases bc : b < c
      · have : a < c := by omega
        simp [this]
      · by_cases cb : c < b
        · simp [bc, cb] at h2
        · have : a < c := by omega
          simp [this]
    · by_cases ba : b < a
      · simp [ab, ba] at h1
      · simp only [ab, ba, if_false] at h1
        have hab : a = b := by omega
        subst hab
        by_cases bc : a < c
        · simp [bc]
        · by_cases cb : c < a
          · simp [bc, cb] at h2
          · simp only [bc, cb, if_false] at h2 ⊢
            exact strLt_trans as bs cs h1 h2

/-- Strings that are not ordered either way are equal (the order is total). -/
theorem strLt_total : ∀ s t : Str, strLt s t = false → strLt t s = false → s = t
  | [], [], _, _ => rfl
  | [], _ :: _, h, _ => by simp [strLt] at h
  | _ :: _, [], _, h => by simp [strLt] at h
  | a :: as, b :: bs, h1, h2 => by
    simp only [strLt] at h1 h2
    by_cases ab : a < b
    · simp [ab] at h1
    · by_cases ba : b < a
      · simp [ba] at h2
      · simp only [ab, ba, if_false] at h1 h2
        have hab : a = b := by omega
        rw [hab, strLt_total as bs h1 h2]

/-- On strings, `s <= t` is the negation of `t < s`. -/
theorem strLe_eq_not_strLt : ∀ s t : Str, strLe s t = !strLt t s
  | [], [] => rfl
  | [], _ :: _ => rfl
  | _ :: _, [] => rfl
  | a :: as, b :: bs => by
    simp only [strLe, strLt]
    by_cases ab : a < b
    · have : ¬ b < a := by omega
      simp [ab, this]
    · by_cases ba : b < a
      · simp [ab, ba]
      · simp only [ab, ba, if_false]
        exact strLe_eq_not_strLt as bs

/-! ### The comparator is a strict weak ordering -/

theorem dirItemLess_irrefl (a : DirItem) : dirItemLess a a = false := by
  simp [dirItemLess, strLt_irrefl]

theorem dirItemLess_asymm (a b : DirItem) (h : dirItemLess a b = true) :
    dirItemLess b a = false := by
  unfold dirItemLess at h ⊢
  cases ha : a.isDir <;> cases hb : b.isDir <;> simp [ha, hb] at h ⊢
  · exact strLt_asymm _ _ h
  · exact strLt_asymm _ _ h

theorem dirItemLess_trans (a b c : DirItem) (h1 : dirItemLess a b = true)
    (h2 : dirItemLess b c = true) : dirItemLess a c = true := by
  unfold dirItemLess at h1 h2 ⊢
  cases ha : a.isDir <;> cases hb : b.isDir <;> cases hc : c.isDir <;>
    simp [ha, hb, hc] at h1 h2 ⊢
  · exact strLt_trans _ _ _ h1 h2
  · exact strLt_trans _ _ _ h1 h2

/-- Entries are incomparable exactly when they have the same kind and the same
lower-cased name. -/
theorem incomparable_iff (a b : DirItem) :
    incomparable a b ↔ a.isDir = b.isDir ∧ toLower a.name = toLower b.name := by
  unfold incomparable dirItemLess
  constructor
  · intro h
    cases ha : a.isDir <;> cases hb : b.isDir <;> simp [ha, hb] at h ⊢
    · exact strLt_total _ _ h.1 h.2
    · exact strLt_total _ _ h.1 h.2
  · rintro ⟨hk, hn⟩
    simp [hk, hn, strLt_irrefl]

theorem incomparable_trans (a b c : DirItem) (h1 : incomparable a b)
    (h2 : incomparable b c) : incomparable a c := by
  rw [incomparable_iff] at h1 h2 ⊢
  exact ⟨h1.1.trans h2.1, h1.2.trans h2.2⟩

theorem dirItemLess_strictWeakOrder : StrictWeakOrder dirItemLess where
  irrefl := dirItemLess_irrefl
  asymm := dirItemLess_asymm
  trans := dirItemLess_trans
  incompTrans := fun a b c h1 h2 h3 h4 => incomparable_trans a b c ⟨h1, h2⟩ ⟨h3, h4⟩

/-- A smaller entry stays smaller when the other side is replaced by an
incomparable one. -/
theorem dirItemLess_of_incomparable_left (a b c : DirItem) (hab : incomparable a b)
    (hac : dirItemLess a c = true) : dirItemLess b c = true := by
  rw [incomparable_iff] at hab
  unfold dirItemLess at hac ⊢
  rw [← hab.1, ← hab.2]
  exact hac

/-! ### Insertion sort meets the contract of `std::sort` -/

theorem orderedInsert_perm (comp : DirItem → DirItem → Bool) (x : DirItem) :
    ∀ l : List DirItem, (orderedInsert comp x l).Perm (x :: l)
  | [] => List.Perm.refl _
  | y :: ys => by
    unfold orderedInsert
    by_cases h : comp x y = true
    · simp [h]
    · simp only [h, if_false]
      exact ((orderedInsert_perm comp x ys).cons y).trans (List.Perm.swap x y ys)

theorem insertionSort_perm (comp : DirItem → DirItem → Bool) :
    ∀ l : List DirItem, (insertionSort comp l).Perm l
  | [] => List.Perm.refl _
  | x :: xs =>
    (orderedInsert_perm comp x (insertionSort comp xs)).trans
      ((insertionSort_perm comp xs).cons x)

theorem orderedInsert_sorted (comp : DirItem → DirItem → Bool) (hc : StrictWeakOrder comp)
    (x : DirItem) : ∀ l : List DirItem, SortedBy comp l → SortedBy comp (orderedInsert comp x l)
  | [], _ => by simp [orderedInsert, SortedBy]
  | y :: ys, hs => by
    unfold SortedBy at hs ⊢
    rw [List.pairwise_cons] at hs
    unfold orderedInsert
    by_cases h : comp x y = true
    · simp only [h, if_true]
      refine List.Pairwise.cons ?_ (List.Pairwise.cons hs.1 hs.2)
      intro z hz
      rcases List.mem_cons.mp hz with rfl | hz
      · exact hc.asymm _ _ h
      · cases hzx : comp z x
        · rfl
        · have := hc.trans z x y hzx h
          rw [hs.1 z hz] at this
          exact absurd this (by simp)
    · simp only [h, if_false]
      refine List.Pairwise.cons ?_ (orderedInsert_sorted comp hc x ys hs.2)
      intro z hz
      have hz2 : z ∈ x :: ys := (orderedInsert_perm comp x ys).subset hz
      rcases List.mem_cons.mp hz2 with rfl | hz2
      · simpa using h
      · exact hs.1 z hz2

theorem insertionSort_sorted (comp : DirItem → DirItem → Bool) (hc : StrictWeakOrder comp) :
    ∀ l : List DirItem, SortedBy comp (insertionSort comp l)
  | [] => List.Pairwise.nil
  | x :: xs => orderedInsert_sorted comp hc x _ (insertionSort_sorted comp hc xs)

theorem insertionSort_contract : StdSortContract insertionSort where
  perm := fun comp l _ => insertionSort_perm comp l
  sorted := fun comp l hc => insertionSort_sorted comp hc l

/-! ### The loop of `listDirectory` -/

theorem enumerate_ofList (fs : FileSystem) (tail : DirStream) :
    ∀ (cs : List DirEntry) (items out : List DirItem),
      cs.map (DirEntry.item fs) = items.map Except.ok →
      enumerate fs (DirStream.ofList cs tail) out = enumerate fs tail (out ++ items)
  | [], [], out, _ => by simp [DirStream.ofList]
  | [], _ :: _, _, h => by simp at h
  | _ :: _, [], _, h => by simp at h
  | c :: cs, it :: items, out, h => by
    simp only [List.map_cons, List.cons.injEq] at h
    have ih := enumerate_ofList fs tail cs items (out ++ [it]) h.2
    simp only [DirStream.ofList, List.foldr_cons] at ih ⊢
    simp only [enumerate, h.1]
    rw [ih]
    simp

/-- The children whose kind query answers are those from which an entry is
built. -/
theorem item_eq_ok_iff (fs : FileSystem) (c : DirEntry) (it : DirItem) :
    c.item fs = .ok it ↔ builtFrom fs c it := by
  unfold DirEntry.item builtFrom
  cases hk : c.isDirectory with
  | error w => simp
  | ok d =>
    simp only [Except.ok.injEq]
    constructor
    · rintro rfl
      simp
    · rintro ⟨h1, h2, h3, h4⟩
      cases it
      simp_all

theorem map_item_eq (fs : FileSystem) :
    ∀ (cs : List DirEntry) (items : List DirItem),
      List.Forall₂ (builtFrom fs) cs items → cs.map (DirEntry.item fs) = items.map Except.ok
  | _, _, .nil => rfl
  | _, _, .cons h t => by
    simp only [List.map_cons, (item_eq_ok_iff fs _ _).mpr h, map_item_eq fs _ _ t]

theorem exists_items (fs : FileSystem) :
    ∀ cs : List DirEntry, (∀ c ∈ cs, ∃ d, c.isDirectory = .ok d) →
      ∃ items, List.Forall₂ (builtFrom fs) cs items
  | [], _ => ⟨[], .nil⟩
  | c :: cs, h => by
    obtain ⟨d, hd⟩ := h c (List.mem_cons_self _ _)
    obtain ⟨items, hi⟩ := exists_items fs cs (fun x hx => h x (List.mem_cons_of_mem _ hx))
    refine ⟨{ path := c.path, name := fs.filename c.path, isDir := d,
              size := if d then 0 else c.fileSize.getD fileSizeError } :: items, .cons ?_ hi⟩
    simp [builtFrom, hd]

/-- When the loop ends without an exception `listDirectory` writes nothing and
returns the sorted vector. -/
theorem listDirectory_of_ok (sort : (DirItem → DirItem → Bool) → List DirItem → List DirItem)
    (fs : FileSystem) (p : Path) (hok : (enumerate fs (fs.directoryIterator p) []).2 = none) :
    listDirectory sort fs p = ([], sort dirItemLess (enumerate fs (fs.directoryIterator p) []).1) := by
  unfold listDirectory
  cases he : enumerate fs (fs.directoryIterator p) [] with
  | mk out e =>
    rw [he] at hok
    simp only at hok
    subst hok
    rfl

theorem listDirectory_of_children (sort : (DirItem → DirItem → Bool) → List DirItem → List DirItem)
    (fs : FileSystem) (p : Path) (cs : List DirEntry) (items : List DirItem)
    (hopen : fs.directoryIterator p = DirStream.ofList cs .done)
    (hitems : List.Forall₂ (builtFrom fs) cs items) :
    listDirectory sort fs p = ([], sort dirItemLess items) := by
  unfold listDirectory
  rw [hopen, enumerate_ofList fs .done cs items [] (map_item_eq fs cs items hitems)]
  simp [enumerate]

theorem adjacentOrdered_of_not_less (a b : DirItem) (h : dirItemLess b a = false) :
    adjacentOrdered a b := by
  unfold adjacentOrdered
  unfold dirItemLess at h
  rw [strLe_eq_not_strLt]
  cases ha : a.isDir <;> cases hb : b.isDir <;> simp [ha, hb] at h ⊢
  · exact h
  · exact h

theorem dir_first_of_not_less (a b : DirItem) (h : dirItemLess b a = false)
    (hb : b.isDir = true) : a.isDir = true := by
  unfold dirItemLess at h
  cases ha : a.isDir
  · simp [ha, hb] at h
  · rfl

/-! ### Properties of `listDirectory` -/

/-- C1. Sort invariant: when the enumeration ends without an exception, every
two adjacent entries of the returned listing are a directory followed by a
file, or two entries of one kind whose lower-cased names are in ascending
byte-wise order; hence no file comes before a directory. -/
theorem listDirectory_sort_invariant
    (sort : (DirItem → DirItem → Bool) → List DirItem → List DirItem)
    (hsort : StdSortContract sort) (fs : FileSystem) (p : Path)
    (hok : (enumerate fs (fs.directoryIterator p) []).2 = none) :
    (∀ (i : Nat) (a b : DirItem), (listDirectory sort fs p).2[i]? = some a →
        (listDirectory sort fs p).2[i + 1]? = some b → adjacentOrdered a b) ∧
    (∀ (i j : Nat) (a b : DirItem), i < j → (listDirectory sort fs p).2[i]? = some a →
        (listDirectory sort fs p).2[j]? = some b → b.isDir = true → a.isDir = true) := by
  rw [listDirectory_of_ok sort fs p hok]
  have hs := hsort.sorted dirItemLess (enumerate fs (fs.directoryIterator p) []).1
    dirItemLess_strictWeakOrder
  unfold SortedBy at hs
  rw [List.pairwise_iff_getElem] at hs
  dsimp only
  constructor
  · intro i a b ha hb
    obtain ⟨hi, rfl⟩ := List.getElem?_eq_some_iff.mp ha
    obtain ⟨hj, rfl⟩ := List.getElem?_eq_some_iff.mp hb
    exact adjacentOrdered_of_not_less _ _ (hs i (i + 1) hi hj (Nat.lt_succ_self i))
  · intro i j a b hij ha hb hdir
    obtain ⟨hi, rfl⟩ := List.getElem?_eq_some_iff.mp ha
    obtain ⟨hj, rfl⟩ := List.getElem?_eq_some_iff.mp hb
    exact dir_first_of_not_less _ _ (hs i j hi hj hij) hdir

/-- C1, at the directory `mixedChildren`. -/
theorem listDirectory_sort_invariant_witness :
    (enumerate (hostWithDir (DirStream.ofList mixedChildren .done))
        ((hostWithDir (DirStream.ofList mixedChildren .done)).directoryIterator sampleDir) []).2
      = none ∧
    (listDirectory insertionSort (hostWithDir (DirStream.ofList mixedChildren .done)) sampleDir).2
      = [dirItem "Build", dirItem "src", unreadableItem "Locked.bin", fileItem "notes.txt"] ∧
    ((∀ (i : Nat) (a b : DirItem),
        (listDirectory insertionSort (hostWithDir (DirStream.ofList mixedChildren .done))
          sampleDir).2[i]? = some a →
        (listDirectory insertionSort (hostWithDir (DirStream.ofList mixedChildren .done))
          sampleDir).2[i + 1]? = some b → adjacentOrdered a b) ∧
     (∀ (i j : Nat) (a b : DirItem), i < j →
        (listDirectory insertionSort (hostWithDir (DirStream.ofList mixedChildren .done))
          sampleDir).2[i]? = some a →
        (listDirectory insertionSort (hostWithDir (DirStream.ofList mixedChildren .done))
          sampleDir).2[j]? = some b → b.isDir = true → a.isDir = true)) :=
  ⟨by decide, by decide,
    listDirectory_sort_invariant insertionSort insertionSort_contract
      (hostWithDir (DirStream.ofList mixedChildren .done)) sampleDir (by decide)⟩

/-- C7. The listing holds exactly the enumerated children: when the
enumeration hands out the children `cs` and ends, and every kind query
answers, the returned listing is a permutation of the entries built from `cs`,
one entry per child carrying its path, name and kind; a file whose size query
fails has its entry like any other (with size `fileSizeError`). -/
theorem listDirectory_perm_children
    (sort : (DirItem → DirItem → Bool) → List DirItem → List DirItem)
    (hsort : StdSortContract sort) (fs : FileSystem) (p : Path) (cs : List DirEntry)
    (hopen : fs.directoryIterator p = DirStream.ofList cs .done)
    (hkind : ∀ c ∈ cs, ∃ d, c.isDirectory = .ok d) :
    ∃ items, List.Forall₂ (builtFrom fs) cs items ∧
      (listDirectory sort fs p).2.Perm items ∧ (listDirectory sort fs p).1 = [] := by
  obtain ⟨items, hitems⟩ := exists_items fs cs hkind
  refine ⟨items, hitems, ?_, ?_⟩
  · rw [listDirectory_of_children sort fs p cs items hopen hitems]
    exact hsort.perm dirItemLess items dirItemLess_strictWeakOrder
  · rw [listDirectory_of_children sort fs p cs items hopen hitems]

/-- C7, at the directory `mixedChildren`, one of whose files has no readable
size. -/
theorem listDirectory_perm_children_witness :
    (∀ c ∈ mixedChildren, ∃ d, c.isDirectory = .ok d) ∧
    (listDirectory insertionSort (hostWithDir (DirStream.ofList mixedChildren .done)) sampleDir).2
      = [dirItem "Build", dirItem "src", unreadableItem "Locked.bin", fileItem "notes.txt"] ∧
    ∃ items,
      List.Forall₂ (builtFrom (hostWithDir (DirStream.ofList mixedChildren .done)))
        mixedChildren items ∧
      (listDirectory insertionSort (hostWithDir (DirStream.ofList mixedChildren .done))
        sampleDir).2.Perm items ∧
      (listDirectory insertionSort (hostWithDir (DirStream.ofList mixedChildren .done))
        sampleDir).1 = [] :=
  ⟨by simp [mixedChildren, fileChild, dirChild, unreadableChild], by decide,
    listDirectory_perm_children insertionSort insertionSort_contract
      (hostWithDir (DirStream.ofList mixedChildren .done)) sampleDir mixedChildren rfl
      (by simp [mixedChildren, fileChild, dirChild, unreadableChild])⟩

/-- C8, as the code has it.  Two children of one kind whose names are equal
after case-folding both have their entry in the listing, and every entry
placed between the two is of that kind with that case-folded name; which of
the two comes first is left to `std::sort`. -/
theorem listDirectory_ties_contiguous
    (sort : (DirItem → DirItem → Bool) → List DirItem → List DirItem)
    (hsort : StdSortContract sort) (fs : FileSystem) (p : Path) (cs : List DirEntry)
    (items : List DirItem)
    (hopen : fs.directoryIterator p = DirStream.ofList cs .done)
    (hitems : List.Forall₂ (builtFrom fs) cs items)
    (a b : DirItem) (ha : a ∈ items) (hb : b ∈ items)
    (hkind : a.isDir = b.isDir) (hname : toLower a.name = toLower b.name) :
    a ∈ (listDirectory sort fs p).2 ∧ b ∈ (listDirectory sort fs p).2 ∧
    ∀ l1 l2 l3, (listDirectory sort fs p).2 = l1 ++ a :: (l2 ++ b :: l3) →
      ∀ c ∈ l2, c.isDir = a.isDir ∧ toLower c.name = toLower a.name := by
  rw [listDirectory_of_children sort fs p cs items hopen hitems]
  have hp := hsort.perm dirItemLess items dirItemLess_strictWeakOrder
  have hs := hsort.sorted dirItemLess items dirItemLess_strictWeakOrder
  refine ⟨hp.mem_iff.mpr ha, hp.mem_iff.mpr hb, ?_⟩
  intro l1 l2 l3 hl c hc
  dsimp only at hl
  unfold SortedBy at hs
  rw [hl, List.pairwise_append] at hs
  have h2 := hs.2.1
  rw [List.pairwise_cons, List.pairwise_append] at h2
  have hca : dirItemLess c a = false := h2.1 c (List.mem_append_left _ hc)
  have hbc : dirItemLess b c = false := h2.2.2.2 c hc b (List.mem_cons_self _ _)
  have hab : incomparable a b := (incomparable_iff a b).mpr ⟨hkind, hname⟩
  have hac : dirItemLess a c = false := by
    cases h : dirItemLess a c
    · rfl
    · rw [dirItemLess_of_incomparable_left a b c hab h] at hbc
      exact absurd hbc (by simp)
  have := (incomparable_iff a c).mp ⟨hac, hca⟩
  exact ⟨this.1.symm, this.2.symm⟩

/-- C8 as the code has it, at the directory `twinChildren`. -/
theorem listDirectory_ties_contiguous_witness :
    fileItem "README" ∈ [fileItem "README", fileItem "readme"] ∧
    fileItem "readme" ∈ [fileItem "README", fileItem "readme"] ∧
    (fileItem "README").isDir = (fileItem "readme").isDir ∧
    toLower (fileItem "README").name = toLower (fileItem "readme").name ∧
    (fileItem "README" ∈
        (listDirectory insertionSort (hostWithDir (DirStream.ofList twinChildren .done))
          sampleDir).2 ∧
      fileItem "readme" ∈
        (listDirectory insertionSort (hostWithDir (DirStream.ofList twinChildren .done))
          sampleDir).2 ∧
      ∀ l1 l2 l3,
        (listDirectory insertionSort (hostWithDir (DirStream.ofList twinChildren .done))
          sampleDir).2 = l1 ++ fileItem "README" :: (l2 ++ fileItem "readme" :: l3) →
        ∀ c ∈ l2, c.isDir = (fileItem "README").isDir ∧
          toLower c.name = toLower (fileItem "README").name) :=
  ⟨by decide, by decide, by decide, by decide,
    listDirectory_ties_contiguous insertionSort insertionSort_contract
      (hostWithDir (DirStream.ofList twinChildren .done)) sampleDir twinChildren
      [fileItem "README", fileItem "readme"] rfl
      (.cons ⟨by decide, by decide, rfl, by decide⟩
        (.cons ⟨by decide, by decide, rfl, by decide⟩ .nil))
      (fileItem "README") (fileItem "readme") (by decide) (by decide) (by decide) (by decide)⟩

set_option maxRecDepth 100000 in
/-- C8 fails as stated.  A function that meets the contract of `std::sort`
returns `readme` before `README` for a directory enumerated as `README`,
`readme`; and the `std::sort` of libstdc++ does so for the directory
`seventeenChildren`, where `README` is enumerated first and `readme`
sixteenth. -/
theorem listDirectory_ties_reordered :
    (StdSortContract insertionSort ∧
      (listDirectory insertionSort (hostWithDir (DirStream.ofList twinChildren .done))
        sampleDir).2 = [fileItem "readme", fileItem "README"]) ∧
    (Gnu.sort dirItemLess
        (["README", "k", "b", "h", "o", "e", "f", "d", "n", "l", "m", "i", "j", "g", "a",
          "readme", "c"].map fileItem)
      = some (["a", "b", "c", "d", "e", "f", "g", "h", "i", "j", "k", "l", "m", "n", "o",
          "readme", "README"].map fileItem)) ∧
    (listDirectory gnuSort (hostWithDir (DirStream.ofList seventeenChildren .done))
        sampleDir).2
      = ["a", "b", "c", "d", "e", "f", "g", "h", "i", "j", "k", "l", "m", "n", "o",
          "readme", "README"].map fileItem :=
  ⟨⟨insertionSort_contract, by decide⟩, by decide, by decide⟩

/-! ### Failure of the enumeration -/

/-- When the enumeration throws after the children `cs`, `listDirectory`
writes the error message and returns the entries built from `cs`, unsorted. -/
theorem listDirectory_of_failure
    (sort : (DirItem → DirItem → Bool) → List DirItem → List DirItem)
    (fs : FileSystem) (p : Path) (cs : List DirEntry) (items : List DirItem)
    (tail : DirStream) (what : Str)
    (hopen : fs.directoryIterator p = DirStream.ofList cs tail)
    (hitems : List.Forall₂ (builtFrom fs) cs items)
    (htail : tail = .fail what ∨
      ∃ e rest, tail = .next e rest ∧ e.isDirectory = .error what) :
    listDirectory sort fs p =
      ([.lit "Error listing directory: ", .str what, .lit "\n"], items) := by
  unfold listDirectory
  rw [hopen, enumerate_ofList fs tail cs items [] (map_item_eq fs cs items hitems)]
  rcases htail with rfl | ⟨e, rest, rfl, he⟩
  · simp [enumerate]
  · simp [enumerate, DirEntry.item, he]

/-- C6, as the code has it.  When the enumeration fails with a filesystem
error after the children `cs` were handed out (on opening the directory when
`cs` is empty, on advancing past the last of `cs`, or on the kind query of the
child that follows `cs`), `listDirectory` returns normally, writes the error
message with the `what()` of the error, and returns the entries built from
`cs` in enumeration order, without sorting them; this is the empty listing
when nothing was handed out before the failure. -/
theorem listDirectory_failure_keeps_built_entries
    (sort : (DirItem → DirItem → Bool) → List DirItem → List DirItem)
    (fs : FileSystem) (p : Path) (cs : List DirEntry) (items : List DirItem)
    (tail : DirStream) (what : Str)
    (hopen : fs.directoryIterator p = DirStream.ofList cs tail)
    (hitems : List.Forall₂ (builtFrom fs) cs items)
    (htail : tail = .fail what ∨
      ∃ e rest, tail = .next e rest ∧ e.isDirectory = .error what) :
    (listDirectory sort fs p).1 = [.lit "Error listing directory: ", .str what, .lit "\n"] ∧
    (listDirectory sort fs p).2 = items ∧
    (cs = [] → (listDirectory sort fs p).2 = []) := by
  rw [listDirectory_of_failure sort fs p cs items tail what hopen hitems htail]
  refine ⟨rfl, rfl, ?_⟩
  rintro rfl
  cases hitems
  rfl

/-- C6 as the code has it, at a directory whose enumeration breaks after two
children, the second of which sorts before the first, and at a directory that
cannot be opened. -/
theorem listDirectory_failure_keeps_built_entries_witness :
    ((listDirectory insertionSort
        (hostWithDir (DirStream.ofList [fileChild "notes.txt", dirChild "src"]
          (.fail (ascii "Input/output error")))) sampleDir).1
      = [.lit "Error listing directory: ", .str (ascii "Input/output error"), .lit "\n"] ∧
    (listDirectory insertionSort
        (hostWithDir (DirStream.ofList [fileChild "notes.txt", dirChild "src"]
          (.fail (ascii "Input/output error")))) sampleDir).2
      = [fileItem "notes.txt", dirItem "src"] ∧
    (([fileChild "notes.txt", dirChild "src"] : List DirEntry) = [] →
      (listDirectory insertionSort
        (hostWithDir (DirStream.ofList [fileChild "notes.txt", dirChild "src"]
          (.fail (ascii "Input/output error")))) sampleDir).2 = [])) ∧
    (listDirectory insertionSort
        (hostWithDir (DirStream.ofList [] (.fail (ascii "Permission denied")))) sampleDir).1
      = [.lit "Error listing directory: ", .str (ascii "Permission denied"), .lit "\n"] ∧
    (listDirectory insertionSort
        (hostWithDir (DirStream.ofList [] (.fail (ascii "Permission denied")))) sampleDir).2
      = [] :=
  ⟨listDirectory_failure_keeps_built_entries insertionSort
      (hostWithDir (DirStream.ofList [fileChild "notes.txt", dirChild "src"]
        (.fail (ascii "Input/output error")))) sampleDir
      [fileChild "notes.txt", dirChild "src"] [fileItem "notes.txt", dirItem "src"]
      (.fail (ascii "Input/output error")) (ascii "Input/output error") rfl
      (.cons ⟨by decide, by decide, rfl, by decide⟩
        (.cons ⟨by decide, by decide, rfl, by decide⟩ .nil)) (Or.inl rfl),
    (listDirectory_failure_keeps_built_entries insertionSort
      (hostWithDir (DirStream.ofList [] (.fail (ascii "Permission denied")))) sampleDir
      [] [] (.fail (ascii "Permission denied")) (ascii "Permission denied") rfl .nil
      (Or.inl rfl)).1,
    (listDirectory_failure_keeps_built_entries insertionSort
      (hostWithDir (DirStream.ofList [] (.fail (ascii "Permission denied")))) sampleDir
      [] [] (.fail (ascii "Permission denied")) (ascii "Permission denied") rfl .nil
      (Or.inl rfl)).2.2 rfl⟩

/-- C6 fails as stated.  When the iterator throws on advancing past the first
child, or when the kind query of the second child throws, the listing
returned is not empty: it holds the entry of the first child. -/
theorem listDirectory_failure_not_empty :
    listDirectory insertionSort
        (hostWithDir (.next (fileChild "notes.txt") (.fail (ascii "Input/output error"))))
        sampleDir
      = ([.lit "Error listing directory: ", .str (ascii "Input/output error"), .lit "\n"],
          [fileItem "notes.txt"]) ∧
    listDirectory insertionSort
        (hostWithDir (.next (fileChild "notes.txt")
          (.next { path := ascii "/srv/docs/vault", isDirectory := .error (ascii "Permission denied"),
                   fileSize := none } .done)))
        sampleDir
      = ([.lit "Error listing directory: ", .str (ascii "Permission denied"), .lit "\n"],
          [fileItem "notes.txt"]) :=
  ⟨by decide, by decide⟩

/-- C10. The comparator handed to `std::sort` is a strict weak ordering on
`DirItem`: it is irreflexive, asymmetric and transitive; two entries are
incomparable exactly when they have the same kind and the same lower-cased
name, and incomparability is transitive.  So the precondition of the sort
holds whatever the entries are. -/
theorem dirItemLess_strict_weak_ordering :
    (∀ a : DirItem, dirItemLess a a = false) ∧
    (∀ a b : DirItem, dirItemLess a b = true → dirItemLess b a = false) ∧
    (∀ a b c : DirItem, dirItemLess a b = true → dirItemLess b c = true →
      dirItemLess a c = true) ∧
    (∀ a b : DirItem,
      incomparable a b ↔ a.isDir = b.isDir ∧ toLower a.name = toLower b.name) ∧
    (∀ a b c : DirItem, incomparable a b → incomparable b c → incomparable a c) ∧
    StrictWeakOrder dirItemLess :=
  ⟨dirItemLess_irrefl, dirItemLess_asymm, dirItemLess_trans, incomparable_iff,
    incomparable_trans, dirItemLess_strictWeakOrder⟩

/-! ### Reading lines -/

theorem untilNewline_found : ∀ d : List Nat, (untilNewline d).2.2 = true →
    d = (untilNewline d).1 ++ newline :: (untilNewline d).2.1
  | [], h => by simp [untilNewline] at h
  | c :: cs, h => by
    unfold untilNewline at h ⊢
    by_cases hc : c = newline
    · simp [hc]
    · simp only [hc, if_false] at h ⊢
      simp only [List.cons_append, List.cons.injEq, true_and]
      exact untilNewline_found cs h

theorem untilNewline_not_found : ∀ d : List Nat, (untilNewline d).2.2 = false →
    (untilNewline d).1 = d ∧ newline ∉ d
  | [], _ => by simp [untilNewline]
  | c :: cs, h => by
    unfold untilNewline at h ⊢
    by_cases hc : c = newline
    · simp [hc] at h
    · simp only [hc, if_false] at h ⊢
      have ih := untilNewline_not_found cs h
      refine ⟨by rw [ih.1], ?_⟩
      intro hm
      rcases List.mem_cons.mp hm with h1 | h1
      · exact hc h1.symm
      · exact ih.2 h1

theorem fileLinesFrom_eq : ∀ (d : List Nat) (cur : Str),
    fileLinesFrom d cur =
      if (untilNewline d).2.2 then
        (cur ++ (untilNewline d).1) :: fileLinesFrom (untilNewline d).2.1 []
      else if (cur ++ (untilNewline d).1).isEmpty then [] else [cur ++ (untilNewline d).1]
  | [], cur => by simp [fileLinesFrom, untilNewline]
  | c :: cs, cur => by
    by_cases hc : c = newline
    · simp [fileLinesFrom, untilNewline, hc]
    · simp only [fileLinesFrom, untilNewline, hc, if_false]
      rw [fileLinesFrom_eq cs (cur ++ [c])]
      simp

theorem fileLines_found (d : List Nat) (h : (untilNewline d).2.2 = true) :
    fileLines d = (untilNewline d).1 :: fileLines (untilNewline d).2.1 := by
  unfold fileLines
  rw [fileLinesFrom_eq d []]
  simp [h]

theorem fileLines_not_found (d : List Nat) (h : (untilNewline d).2.2 = false) :
    fileLines d = if d.isEmpty then [] else [d] := by
  unfold fileLines
  rw [fileLinesFrom_eq d []]
  simp [h, (untilNewline_not_found d h).1]

theorem terminated_found (d : List Nat) (h : (untilNewline d).2.2 = true) :
    terminated d = terminated (untilNewline d).2.1 := by
  have hd := untilNewline_found d h
  generalize (untilNewline d).1 = l at hd
  generalize (untilNewline d).2.1 = rest at hd
  subst hd
  unfold terminated
  cases rest with
  | nil => simp
  | cons r rs =>
    simp only [List.getLast?_append, List.getLast?_cons_cons]
    cases h2 : (r :: rs).getLast? with
    | none => simp at h2
    | some c => simp

theorem terminated_not_found (d : List Nat) (h : (untilNewline d).2.2 = false)
    (hd : d ≠ []) : terminated d = false := by
  have hn := (untilNewline_not_found d h).2
  unfold terminated
  cases hl : d.getLast? with
  | none => exact absurd (List.getLast?_eq_none_iff.mp hl) hd
  | some c =>
    have hc : c ∈ d := List.mem_of_getLast?_eq_some hl
    have : c ≠ newline := fun e => hn (e ▸ hc)
    simpa using this

theorem getline_good_found (file d : List Nat) (line : Str)
    (h : (untilNewline d).2.2 = true) :
    getline (goodStream file d) line =
      (goodStream file (untilNewline d).2.1, (untilNewline d).1) := by
  simp [getline, goodStream, h]

theorem getline_good_not_found (file d : List Nat) (line : Str)
    (h : (untilNewline d).2.2 = false) :
    getline (goodStream file d) line =
      ({ file := file, rest := [], eofbit := true, failbit := d.isEmpty }, d) := by
  simp [getline, goodStream, h, (untilNewline_not_found d h).1]

/-! ### The loop of `showFilePreview` -/

theorem contentLines_cons (l : Str) (ls : List Str) :
    contentLines (l :: ls) = [.str l, .lit "\n"] ++ contentLines ls := by
  simp [contentLines]

/-- With more lines than the cap, the loop writes the first `n` lines and
leaves the stream in good state. -/
theorem previewLoop_truncates : ∀ (n : Nat) (file d : List Nat) (line : Str),
    n < (fileLines d).length →
    (previewLoop n (goodStream file d) line).2 = contentLines ((fileLines d).take n) ∧
    (previewLoop n (goodStream file d) line).1.failbit = false ∧
    (previewLoop n (goodStream file d) line).1.eofbit = false
  | 0, file, d, line, _ => by simp [previewLoop, goodStream, contentLines]
  | n + 1, file, d, line, h => by
    cases hf : (untilNewline d).2.2 with
    | false =>
      rw [fileLines_not_found d hf] at h
      split at h <;> simp at h
    | true =>
      rw [fileLines_found d hf] at h ⊢
      have ih := previewLoop_truncates n file (untilNewline d).2.1 (untilNewline d).1
        (by simpa using h)
      simp only [previewLoop, getline_good_found file d line hf]
      simp [goodStream, contentLines_cons] at ih ⊢
      exact ih

theorem previewLoop_eof (n : Nat) (s : IStream) (line : Str) (h : s.eofbit = true) :
    previewLoop (n + 1) s line = ({ s with failbit := true }, []) := by
  simp [previewLoop, getline, h]

/-- With no more lines than the cap, the loop writes every line; it ends
with `failbit` set exactly when the file has fewer lines than the cap, and
otherwise with `eofbit` set exactly when the last line has no terminator. -/
theorem previewLoop_all : ∀ (n : Nat) (file d : List Nat) (line : Str),
    (fileLines d).length ≤ n →
    (previewLoop n (goodStream file d) line).2 = contentLines (fileLines d) ∧
    (previewLoop n (goodStream file d) line).1.failbit = decide ((fileLines d).length < n) ∧
    ((previewLoop n (goodStream file d) line).1.failbit = false →
      (previewLoop n (goodStream file d) line).1.eofbit = !terminated d)
  | 0, file, d, line, h => by
    have hl : fileLines d = [] := List.length_eq_zero.mp (Nat.le_zero.mp h)
    have hd : d = [] := by
      cases hf : (untilNewline d).2.2 with
      | true => rw [fileLines_found d hf] at hl; simp at hl
      | false =>
        rw [fileLines_not_found d hf] at hl
        cases d with
        | nil => rfl
        | cons c cs => simp at hl
    subst hd
    simp [previewLoop, goodStream, hl, contentLines, terminated]
  | n + 1, file, d, line, h => by
    cases hf : (untilNewline d).2.2 with
    | true =>
      rw [fileLines_found d hf] at h ⊢
      have ih := previewLoop_all n file (untilNewline d).2.1 (untilNewline d).1
        (by simpa using h)
      simp only [previewLoop, getline_good_found file d line hf]
      rw [terminated_found d hf]
      simp [goodStream, contentLines_cons] at ih ⊢
      exact ih
    | false =>
      rw [fileLines_not_found d hf]
      simp only [previewLoop, getline_good_not_found file d line hf]
      cases d with
      | nil => simp [contentLines]
      | cons c cs =>
        have ht := terminated_not_found (c :: cs) hf (by simp)
        cases n with
        | zero => simp [previewLoop, contentLines, ht]
        | succ m => simp [previewLoop_eof, contentLines]

theorem any_take_iff (file : List Nat) :
    (file.take 4096).any (fun c => c == 0) = true ↔ HasNullInFirstBlock file := by
  unfold HasNullInFirstBlock
  rw [List.any_eq_true]
  constructor
  · rintro ⟨x, hx, h0⟩
    have hx0 : x = 0 := by simpa using h0
    subst hx0
    obtain ⟨i, hi⟩ := List.mem_iff_getElem?.mp hx
    obtain ⟨hlt, _⟩ := List.getElem?_eq_some_iff.mp hi
    rw [List.length_take] at hlt
    refine ⟨i, hlt, ?_⟩
    rw [← hi, List.getElem?_take_of_lt (by omega)]
  · rintro ⟨i, hlt, hi⟩
    refine ⟨0, List.mem_iff_getElem?.mpr ⟨i, ?_⟩, by simp⟩
    rw [List.getElem?_take_of_lt (by omega)]
    exact hi

/-- What `showFilePreview` does with a file that opens: the binary notice
when the first block holds a null byte, and otherwise the header, what the
loop wrote, the truncation notice when the loop leaves the stream with neither
`failbit` nor `eofbit`, and the footer. -/
theorem showFilePreview_of_open (fs : FileSystem) (filePath : Path) (maxLines : Nat)
    (file : List Nat) (hopen : fs.openFile filePath = some file) :
    showFilePreview fs filePath maxLines =
      if (file.take 4096).any (fun c => c == 0) then (binaryNotice, true)
      else
        (previewHeader fs filePath ++ (previewLoop maxLines (goodStream file file) []).2
          ++ (if !(previewLoop maxLines (goodStream file file) []).1.failbit
                && !(previewLoop maxLines (goodStream file file) []).1.eofbit
              then truncationNotice maxLines else [])
          ++ previewFooter, true) := by
  simp only [showFilePreview, hopen, IStream.read, IStream.rewind, goodStream]

/-! ### Properties of `showFilePreview` -/

/-- A text file with fewer lines than the cap is shown whole, without the
truncation notice. -/
theorem showFilePreview_below_cap (fs : FileSystem) (filePath : Path) (maxLines : Nat)
    (file : List Nat) (hopen : fs.openFile filePath = some file)
    (htext : ¬ HasNullInFirstBlock file) (hlines : (fileLines file).length < maxLines) :
    showFilePreview fs filePath maxLines =
      (previewHeader fs filePath ++ contentLines (fileLines file) ++ previewFooter, true) := by
  rw [showFilePreview_of_open fs filePath maxLines file hopen]
  have hn : (file.take 4096).any (fun c => c == 0) = false := by
    cases h : (file.take 4096).any (fun c => c == 0)
    · rfl
    · exact absurd ((any_take_iff file).mp h) htext
  obtain ⟨h1, h2, _⟩ := previewLoop_all maxLines file file [] (Nat.le_of_lt hlines)
  rw [hn, h1, h2]
  simp [hlines]

/-- A text file with exactly as many lines as the cap, the last of which has
no line terminator, is shown whole, without the truncation notice. -/
theorem showFilePreview_at_cap_unterminated (fs : FileSystem) (filePath : Path)
    (maxLines : Nat) (file : List Nat) (hopen : fs.openFile filePath = some file)
    (htext : ¬ HasNullInFirstBlock file) (hlines : (fileLines file).length = maxLines)
    (hlast : terminated file = false) :
    showFilePreview fs filePath maxLines =
      (previewHeader fs filePath ++ contentLines (fileLines file) ++ previewFooter, true) := by
  rw [showFilePreview_of_open fs filePath maxLines file hopen]
  have hn : (file.take 4096).any (fun c => c == 0) = false := by
    cases h : (file.take 4096).any (fun c => c == 0)
    · rfl
    · exact absurd ((any_take_iff file).mp h) htext
  obtain ⟨h1, h2, h3⟩ := previewLoop_all maxLines file file [] (Nat.le_of_eq hlines)
  have h2f : (previewLoop maxLines (goodStream file file) []).1.failbit = false := by
    rw [h2]; simp [hlines]
  rw [hn, h1, h2f, h3 h2f, hlast]
  simp

/-- A text file with exactly as many lines as the cap, the last of which is
followed by a line terminator, is shown whole and then said to be truncated. -/
theorem showFilePreview_at_cap_terminated (fs : FileSystem) (filePath : Path)
    (maxLines : Nat) (file : List Nat) (hopen : fs.openFile filePath = some file)
    (htext : ¬ HasNullInFirstBlock file) (hlines : (fileLines file).length = maxLines)
    (hlast : terminated file = true) :
    showFilePreview fs filePath maxLines =
      (previewHeader fs filePath ++ contentLines (fileLines file)
        ++ truncationNotice maxLines ++ previewFooter, true) := by
  rw [showFilePreview_of_open fs filePath maxLines file hopen]
  have hn : (file.take 4096).any (fun c => c == 0) = false := by
    cases h : (file.take 4096).any (fun c => c == 0)
    · rfl
    · exact absurd ((any_take_iff file).mp h) htext
  obtain ⟨h1, h2, h3⟩ := previewLoop_all maxLines file file [] (Nat.le_of_eq hlines)
  have h2f : (previewLoop maxLines (goodStream file file) []).1.failbit = false := by
    rw [h2]; simp [hlines]
  rw [hn, h1, h2f, h3 h2f, hlast]
  simp

set_option maxRecDepth 1000000 in
/-- C2 at a file the program can be given: 200 lines, each followed by a
newline, previewed with the cap of 200 lines that `fileExplorer` uses.  The
file has no null byte and exactly 200 lines, all 200 are written, and the
truncation notice is written after them although nothing was left out. -/
theorem showFilePreview_notice_at_cap :
    (twoHundredLines.take 4096).any (fun c => c == 0) = false ∧
    fileLines twoHundredLines = List.replicate 200 [120] ∧
    showFilePreview (hostWithFile twoHundredLines) samplePath defaultMaxLines =
      ([.lit "\n----- File: ", .str (ascii "notes.txt"), .lit " -----\n"]
        ++ contentLines (List.replicate 200 [120])
        ++ [.lit "... (truncated after ", .num 200, .lit " lines)\n"]
        ++ [.lit "----- End of preview -----\n"], true) :=
  ⟨by decide, by decide, by decide⟩

/-- C3. Preview truncation above the cap: a file that opens, has no null byte
in its first 4096 bytes and has exactly `maxLines + k` lines with `k >= 1` is
previewed as the header, the first `maxLines` lines of the file in order, each
followed by a newline, then the truncation notice naming `maxLines`, then the
footer. -/
theorem showFilePreview_truncates (fs : FileSystem) (filePath : Path) (maxLines k : Nat)
    (file : List Nat) (hopen : fs.openFile filePath = some file)
    (htext : ¬ HasNullInFirstBlock file)
    (hlines : (fileLines file).length = maxLines + k) (hk : 1 ≤ k) :
    showFilePreview fs filePath maxLines =
      ([.lit "\n----- File: ", .str (fs.filename filePath), .lit " -----\n"]
        ++ contentLines ((fileLines file).take maxLines)
        ++ [.lit "... (truncated after ", .num maxLines, .lit " lines)\n"]
        ++ [.lit "----- End of preview -----\n"], true) ∧
    ((fileLines file).take maxLines).length = maxLines := by
  rw [showFilePreview_of_open fs filePath maxLines file hopen]
  have hn : (file.take 4096).any (fun c => c == 0) = false := by
    cases h : (file.take 4096).any (fun c => c == 0)
    · rfl
    · exact absurd ((any_take_iff file).mp h) htext
  obtain ⟨h1, h2, h3⟩ := previewLoop_truncates maxLines file file [] (by omega)
  rw [hn, h1, h2, h3]
  refine ⟨by simp [previewHeader, truncationNotice, previewFooter], ?_⟩
  rw [List.length_take]
  omega

/-- C3, at a file of three lines previewed with a cap of two. -/
theorem showFilePreview_truncates_witness :
    fileLines threeLines = [ascii "alpha", ascii "beta", ascii "gamma"] ∧
    showFilePreview (hostWithFile threeLines) samplePath 2 =
      ([.lit "\n----- File: ", .str (ascii "notes.txt"), .lit " -----\n",
        .str (ascii "alpha"), .lit "\n", .str (ascii "beta"), .lit "\n",
        .lit "... (truncated after ", .num 2, .lit " lines)\n",
        .lit "----- End of preview -----\n"], true) ∧
    (showFilePreview (hostWithFile threeLines) samplePath 2 =
      ([.lit "\n----- File: ", .str ((hostWithFile threeLines).filename samplePath),
          .lit " -----\n"]
        ++ contentLines ((fileLines threeLines).take 2)
        ++ [.lit "... (truncated after ", .num 2, .lit " lines)\n"]
        ++ [.lit "----- End of preview -----\n"], true) ∧
      ((fileLines threeLines).take 2).length = 2) :=
  ⟨by decide, by decide,
    showFilePreview_truncates (hostWithFile threeLines) samplePath 2 1 threeLines rfl
      (fun h => absurd ((any_take_iff threeLines).mpr h) (by decide)) (by decide) (by decide)⟩

/-- C4. Binary suppression: for a file of any length that opens and has a null
byte among its first `min(4096, length)` bytes, and for every `maxLines`, the
whole output of `showFilePreview` is the one notice that the preview is
suppressed: no header, no content line, no truncation notice, no footer. -/
theorem showFilePreview_binary_suppressed (fs : FileSystem) (filePath : Path)
    (maxLines : Nat) (file : List Nat) (hopen : fs.openFile filePath = some file)
    (hnull : HasNullInFirstBlock file) :
    showFilePreview fs filePath maxLines =
      ([.lit "(Binary file preview suppressed)\n"], true) := by
  rw [showFilePreview_of_open fs filePath maxLines file hopen,
    (any_take_iff file).mpr hnull]
  rfl

/-- C4, at a file whose fifth byte is null and which goes on with text. -/
theorem showFilePreview_binary_suppressed_witness :
    HasNullInFirstBlock binaryFile ∧
    showFilePreview (hostWithFile binaryFile) samplePath 200 =
      ([.lit "(Binary file preview suppressed)\n"], true) :=
  ⟨⟨4, by decide, by decide⟩,
    showFilePreview_binary_suppressed (hostWithFile binaryFile) samplePath 200 binaryFile rfl
      ⟨4, by decide, by decide⟩⟩

/-! ### One iteration of `fileExplorer` -/

theorem fileExplorerStep_current
    (sort : (DirItem → DirItem → Bool) → List DirItem → List DirItem)
    (fs : FileSystem) (current : Path) (inp : Input) :
    (fileExplorerStep sort fs current inp).current =
      (runCommand fs (listDirectory sort fs current).2 current inp).current := rfl

theorem selected_eq_some (items : List DirItem) (idx : Nat) (it : DirItem) :
    selected items idx = some it ↔
      1 ≤ idx ∧ idx ≤ items.length ∧ items[idx - 1]? = some it := by
  unfold selected
  by_cases h : 1 ≤ idx ∧ idx ≤ items.length
  · simp [h]
  · simp only [h, if_false]
    constructor
    · intro h1
      exact absurd h1 (by simp)
    · rintro ⟨h1, h2, _⟩
      exact absurd ⟨h1, h2⟩ h

/-- No directory is selected by an index out of range or by the index of a
file. -/
theorem selected_dir_none (items : List DirItem) (idx : Nat)
    (h : idx < 1 ∨ items.length < idx ∨
      ∃ it, items[idx - 1]? = some it ∧ it.isDir = false) :
    (selected items idx).filter (fun it => it.isDir) = none := by
  cases hs : selected items idx with
  | none => rfl
  | some it =>
    obtain ⟨h1, h2, h3⟩ := (selected_eq_some items idx it).mp hs
    rcases h with h | h | ⟨x, hx, hd⟩
    · omega
    · omega
    · rw [h3] at hx
      cases hx
      simp [Option.filter, hd]

/-- No file is selected by an index out of range or by the index of a
directory. -/
theorem selected_file_none (items : List DirItem) (idx : Nat)
    (h : idx < 1 ∨ items.length < idx ∨
      ∃ it, items[idx - 1]? = some it ∧ it.isDir = true) :
    (selected items idx).filter (fun it => !it.isDir) = none := by
  cases hs : selected items idx with
  | none => rfl
  | some it =>
    obtain ⟨h1, h2, h3⟩ := (selected_eq_some items idx it).mp hs
    rcases h with h | h | ⟨x, hx, hd⟩
    · omega
    · omega
    · rw [h3] at hx
      cases hx
      simp [Option.filter, hd]

theorem filter_eq_some (o : Option DirItem) (f : DirItem → Bool) (it : DirItem)
    (h : o.filter f = some it) : o = some it ∧ f it = true := by
  cases o with
  | none => simp [Option.filter] at h
  | some x =>
    simp only [Option.filter] at h
    split at h
    · cases h
      exact ⟨rfl, by assumption⟩
    · cases h

/-- C5. An invalid selection is rejected without state change.  In an
iteration whose listing is `items`, with `idx` read at the index prompt: after
command 1 (open), when `idx < 1`, or `idx` exceeds the number of entries, or
entry `idx` is a file, the iteration writes the invalid-directory message,
calls no preview and leaves `current` as it was, the loop going on; after
command 2 (view), when `idx` is out of range or entry `idx` is a directory,
it writes the invalid-file message, calls no preview and leaves `current` as
it was. -/
theorem invalid_selection_rejected
    (sort : (DirItem → DirItem → Bool) → List DirItem → List DirItem)
    (fs : FileSystem) (current : Path) (inp : Input) (idx : Nat) (items : List DirItem)
    (hitems : (listDirectory sort fs current).2 = items)
    (hidx : inp.idx = some idx) :
    (inp.choice = some 1 →
      (idx < 1 ∨ items.length < idx ∨ ∃ it, items[idx - 1]? = some it ∧ it.isDir = false) →
      (fileExplorerStep sort fs current inp).current = current ∧
      (fileExplorerStep sort fs current inp).running = true ∧
      (fileExplorerStep sort fs current inp).previewed = none ∧
      (fileExplorerStep sort fs current inp).out =
        (listDirectory sort fs current).1 ++ printDirectory current items ++ menu ++
          [.lit "Enter item # to open (directory): ", .lit "Invalid directory selection.\n",
            .lit "\nPress Enter to continue..."]) ∧
    (inp.choice = some 2 →
      (idx < 1 ∨ items.length < idx ∨ ∃ it, items[idx - 1]? = some it ∧ it.isDir = true) →
      (fileExplorerStep sort fs current inp).current = current ∧
      (fileExplorerStep sort fs current inp).running = true ∧
      (fileExplorerStep sort fs current inp).previewed = none ∧
      (fileExplorerStep sort fs current inp).out =
        (listDirectory sort fs current).1 ++ printDirectory current items ++ menu ++
          [.lit "Enter item # to view (file): ", .lit "Invalid file selection.\n",
            .lit "\nPress Enter to continue..."]) := by
  constructor
  · intro hc hbad
    have hs := selected_dir_none items idx hbad
    simp [fileExplorerStep, runCommand, hc, hidx, hitems, hs, pressEnterToContinue]
  · intro hc hbad
    have hs := selected_file_none items idx hbad
    simp [fileExplorerStep, runCommand, hc, hidx, hitems, hs, pressEnterToContinue]

/-- C5, at index 999 in a listing of five entries, and at the index of an
entry of the wrong kind. -/
theorem invalid_selection_rejected_witness :
    (listDirectory insertionSort fiveHost sampleDir).2 = fiveItems ∧
    fiveItems.length = 5 ∧
    (fileExplorerStep insertionSort fiveHost sampleDir (openAt 999)).current = sampleDir ∧
    (fileExplorerStep insertionSort fiveHost sampleDir (openAt 999)).previewed = none ∧
    (fileExplorerStep insertionSort fiveHost sampleDir (openAt 3)).current = sampleDir ∧
    (fileExplorerStep insertionSort fiveHost sampleDir (viewAt 999)).current = sampleDir ∧
    (fileExplorerStep insertionSort fiveHost sampleDir (viewAt 999)).previewed = none ∧
    (fileExplorerStep insertionSort fiveHost sampleDir (viewAt 1)).previewed = none ∧
    (fileExplorerStep insertionSort fiveHost sampleDir (viewAt 999)).out =
        (listDirectory insertionSort fiveHost sampleDir).1 ++ printDirectory sampleDir fiveItems
          ++ menu ++
          [.lit "Enter item # to view (file): ", .lit "Invalid file selection.\n",
            .lit "\nPress Enter to continue..."] :=
  ⟨by decide, by decide,
    (((invalid_selection_rejected insertionSort fiveHost sampleDir (openAt 999) 999 fiveItems
      (by decide) rfl).1 rfl (Or.inr (Or.inl (by decide)))).1),
    (((invalid_selection_rejected insertionSort fiveHost sampleDir (openAt 999) 999 fiveItems
      (by decide) rfl).1 rfl (Or.inr (Or.inl (by decide)))).2.2.1),
    (((invalid_selection_rejected insertionSort fiveHost sampleDir (openAt 3) 3 fiveItems
      (by decide) rfl).1 rfl (Or.inr (Or.inr ⟨fileItem "a.txt", by decide, by decide⟩))).1),
    (((invalid_selection_rejected insertionSort fiveHost sampleDir (viewAt 999) 999 fiveItems
      (by decide) rfl).2 rfl (Or.inr (Or.inl (by decide)))).1),
    (((invalid_selection_rejected insertionSort fiveHost sampleDir (viewAt 999) 999 fiveItems
      (by decide) rfl).2 rfl (Or.inr (Or.inl (by decide)))).2.2.1),
    (((invalid_selection_rejected insertionSort fiveHost sampleDir (viewAt 1) 1 fiveItems
      (by decide) rfl).2 rfl (Or.inr (Or.inr ⟨dirItem "Build", by decide, by decide⟩))).2.2.1),
    (((invalid_selection_rejected insertionSort fiveHost sampleDir (viewAt 999) 999 fiveItems
      (by decide) rfl).2 rfl (Or.inr (Or.inl (by decide)))).2.2.2)⟩

/-- C9. `current` is changed by open, up and change-directory only.  If one
iteration of the loop ends with `current` different from what it was, then
the command was 1 with the index of a directory of the listing (and `current`
is the path of that entry), or 3 (and `current` is the parent path), or 4
with a path that exists and is a directory (and `current` is its canonical
form, or the path as given when that fails).  After command 2 with any index,
command 5, command 0, a menu number outside 0..5, input at the menu that is
not a number, input at the index prompt that is not a number, and command 4
with a path that does not exist or is not a directory, `current` is what it
was. -/
theorem currentDirectory_frame
    (sort : (DirItem → DirItem → Bool) → List DirItem → List DirItem)
    (fs : FileSystem) (current : Path) (inp : Input) :
    ((fileExplorerStep sort fs current inp).current ≠ current →
      (inp.choice = some 1 ∧ ∃ idx it, inp.idx = some idx ∧ 1 ≤ idx ∧
        idx ≤ (listDirectory sort fs current).2.length ∧
        (listDirectory sort fs current).2[idx - 1]? = some it ∧ it.isDir = true ∧
        (fileExplorerStep sort fs current inp).current = it.path) ∨
      (inp.choice = some 3 ∧ fs.hasParentPath current = true ∧
        (fileExplorerStep sort fs current inp).current = fs.parentPath current) ∨
      (inp.choice = some 4 ∧ fs.pathExists inp.pathStr = true ∧
        fs.isDirectory inp.pathStr = true ∧
        (fileExplorerStep sort fs current inp).current =
          (fs.canonical inp.pathStr).getD inp.pathStr)) ∧
    (inp.choice = some 2 → (fileExplorerStep sort fs current inp).current = current) ∧
    (inp.choice = some 5 → (fileExplorerStep sort fs current inp).current = current) ∧
    (inp.choice = some 0 → (fileExplorerStep sort fs current inp).current = current) ∧
    (∀ c : Int, inp.choice = some c → (c < 0 ∨ 5 < c) →
      (fileExplorerStep sort fs current inp).current = current) ∧
    (inp.choice = none → (fileExplorerStep sort fs current inp).current = current) ∧
    (inp.idx = none → (inp.choice = some 1 ∨ inp.choice = some 2) →
      (fileExplorerStep sort fs current inp).current = current) ∧
    (inp.choice = some 4 →
      (fs.pathExists inp.pathStr = false ∨ fs.isDirectory inp.pathStr = false) →
      (fileExplorerStep sort fs current inp).current = current) := by
  rw [fileExplorerStep_current]
  generalize (listDirectory sort fs current).2 = items
  refine ⟨?_, ?_, ?_, ?_, ?_, ?_, ?_, ?_⟩
  · intro hne
    cases hc : inp.choice with
    | none => simp [runCommand, hc] at hne
    | some c =>
      by_cases h0 : c = 0
      · simp [runCommand, hc, h0] at hne
      by_cases h1 : c = 1
      · subst h1
        left
        cases hi : inp.idx with
        | none => simp [runCommand, hc, hi] at hne
        | some idx =>
          cases hs : (selected items idx).filter (fun it => it.isDir) with
          | none => simp [runCommand, hc, hi, hs] at hne
          | some it =>
            obtain ⟨hsel, hdir⟩ := filter_eq_some _ _ _ hs
            obtain ⟨h1, h2, h3⟩ := (selected_eq_some items idx it).mp hsel
            refine ⟨rfl, idx, it, rfl, h1, h2, h3, hdir, ?_⟩
            simp [runCommand, hc, hi, hs]
      by_cases h2 : c = 2
      · subst h2
        cases hi : inp.idx with
        | none => simp [runCommand, hc, hi] at hne
        | some idx =>
          cases hs : (selected items idx).filter (fun it => !it.isDir) with
          | none => simp [runCommand, hc, hi, hs] at hne
          | some it => simp [runCommand, hc, hi, hs] at hne
      by_cases h3 : c = 3
      · subst h3
        right; left
        cases hp : fs.hasParentPath current with
        | false => simp [runCommand, hc, hp] at hne
        | true => simp [runCommand, hc, hp]
      by_cases h4 : c = 4
      · subst h4
        right; right
        cases he : fs.pathExists inp.pathStr with
        | false => simp [runCommand, hc, he] at hne
        | true =>
          cases hd : fs.isDirectory inp.pathStr with
          | false => simp [runCommand, hc, he, hd] at hne
          | true => simp [runCommand, hc, he, hd]
      by_cases h5 : c = 5
      · simp [runCommand, hc, h5] at hne
      · simp [runCommand, hc, h0, h1, h2, h3, h4, h5] at hne
  · intro hc
    cases hi : inp.idx with
    | none => simp [runCommand, hc, hi]
    | some idx =>
      cases hs : (selected items idx).filter (fun it => !it.isDir) with
      | none => simp [runCommand, hc, hi, hs]
      | some it => simp [runCommand, hc, hi, hs]
  · intro hc
    simp [runCommand, hc]
  · intro hc
    simp [runCommand, hc]
  · intro c hc hout
    have h0 : c ≠ 0 := by omega
    have h1 : c ≠ 1 := by omega
    have h2 : c ≠ 2 := by omega
    have h3 : c ≠ 3 := by omega
    have h4 : c ≠ 4 := by omega
    have h5 : c ≠ 5 := by omega
    simp [runCommand, hc, h0, h1, h2, h3, h4, h5]
  · intro hc
    simp [runCommand, hc]
  · intro hi hc
    rcases hc with hc | hc <;> simp [runCommand, hc, hi]
  · intro hc hbad
    rcases hbad with h | h <;> simp [runCommand, hc, h]

/-- C9, on a host where `/srv/docs` holds five entries: opening entry 2 (the
directory `src`) and going up change `current`; viewing entry 3, an unknown
menu number and a change to a path that does not exist leave it as it was. -/
theorem currentDirectory_frame_witness :
    (fileExplorerStep insertionSort srvHost sampleDir (openAt 2)).current
      = ascii "/srv/docs/src" ∧
    (fileExplorerStep insertionSort srvHost sampleDir
      { choice := some 3, idx := none, pathStr := [] }).current = ascii "/srv" ∧
    (fileExplorerStep insertionSort srvHost sampleDir
      { choice := some 4, idx := none, pathStr := ascii "/srv" }).current = ascii "/srv" ∧
    (fileExplorerStep insertionSort srvHost sampleDir (viewAt 3)).current = sampleDir ∧
    (fileExplorerStep insertionSort srvHost sampleDir
      { choice := some 7, idx := none, pathStr := [] }).current = sampleDir ∧
    (fileExplorerStep insertionSort srvHost sampleDir
      { choice := some 4, idx := none, pathStr := ascii "/nowhere" }).current = sampleDir :=
  ⟨by decide, by decide, by decide,
    (currentDirectory_frame insertionSort srvHost sampleDir (viewAt 3)).2.1 rfl,
    (currentDirectory_frame insertionSort srvHost sampleDir
      { choice := some 7, idx := none, pathStr := [] }).2.2.2.2.1 7 rfl (Or.inr (by decide)),
    (currentDirectory_frame insertionSort srvHost sampleDir
      { choice := some 4, idx := none, pathStr := ascii "/nowhere" }).2.2.2.2.2.2.2 rfl
      (Or.inl (by decide))⟩

end FileExplorer
